import Mathlib

/-!
# Verification of the ec_predict_flow front-end configuration core

Shallow embedding of the pure "Pipeline Configuration & Recommendation
Engine" of the repository:

* `src/frontend/src/lib/recommendations.ts` — interval parsing, bar
  estimation, walk-forward window counting and recommendation;
* `src/frontend/src/pages/HomePage.tsx` — `deepMerge`, the per-stage
  override validation in `onRun`, and the assembly of `config_overrides`;
* `src/frontend/src/composables/useModuleState.js` — the `backtestSummary`
  assessor (score, verdict, warnings) and the `onRerun` label validation.

JavaScript numbers are embedded as `ℚ` (with explicit `Int.floor` where the
source calls `Math.floor`), JSON values as the inductive `JsonValue`, and
fallible parsing as `Option`.
-/

namespace EcPredictFlow

/-! ## IntervalParser (`parseIntervalToMinutes`, recommendations.ts lines 1–14)

The source trims the input, matches the whole string against
`/^(\d+)?(m|h|d)$/i`, defaults the magnitude to 1, rejects magnitudes ≤ 0,
and multiplies by 1 / 60 / 1440 according to the unit.  The regex is
embedded as "a (possibly empty) maximal digit prefix followed by exactly
one unit letter". -/

/-- Numeric value of a non-empty ASCII digit string, as `Number` would read
the regex capture group. -/
def digitsToNat (ds : List Char) : ℕ :=
  ds.foldl (fun acc c => acc * 10 + (c.toNat - '0'.toNat)) 0

/-- `String.prototype.trim()` on the character list: drop leading and
trailing whitespace. -/
def trimChars (cs : List Char) : List Char :=
  (((cs.dropWhile Char.isWhitespace).reverse).dropWhile Char.isWhitespace).reverse

/-- Embedding of `parseIntervalToMinutes` (recommendations.ts).  Returns the
minutes-per-bar, or `none` when the string does not match
`^(\d+)?(m|h|d)$` case-insensitively or the magnitude is ≤ 0. -/
def parseIntervalToMinutes (interval : String) : Option ℕ :=
  let cs := trimChars interval.data
  let digits := cs.takeWhile Char.isDigit
  let rest := cs.dropWhile Char.isDigit
  match rest with
  | [u] =>
    let ul := u.toLower
    if ul = 'm' ∨ ul = 'h' ∨ ul = 'd' then
      let n := if digits.isEmpty then 1 else digitsToNat digits
      if n = 0 then none
      else if ul = 'm' then some n
      else if ul = 'h' then some (n * 60)
      else some (n * 24 * 60)
    else none
  | _ => none

/-! ## BarEstimator (`parseDateYmdUtc`, `estimateTotalBars`,
recommendations.ts lines 16–36)

`parseDateYmdUtc` matches `^(\d{4})-(\d{2})-(\d{2})$`, range-checks
month ∈ [1,12] and day ∈ [1,31] (no calendar validation), and returns
`Date.UTC(year, month-1, day)`.  `Date.UTC` is embedded by the proleptic
Gregorian civil-day count (days relative to 1970-01-01) times 86400000 ms,
including ECMAScript's mapping of two-digit years 0–99 to 1900–1999. -/

/-- Days from 1970-01-01 to the proleptic Gregorian date `(y, m, d)`
(`m ∈ [1,12]`; `d` may overflow the month, exactly as `Date.UTC` allows). -/
def daysFromCivil (y m d : ℤ) : ℤ :=
  let y' := if m ≤ 2 then y - 1 else y
  let era := Int.fdiv y' 400
  let yoe := y' - era * 400
  let mp := if m > 2 then m - 3 else m + 9
  let doy := Int.fdiv (153 * mp + 2) 5 + d - 1
  let doe := yoe * 365 + Int.fdiv yoe 4 - Int.fdiv yoe 100 + doy
  era * 146097 + doe - 719468

/-- Embedding of `Date.UTC(year, month-1, day)` at UTC midnight:
milliseconds since the epoch, with years 0–99 read as 1900–1999. -/
def dateUtcMs (year month day : ℤ) : ℤ :=
  let y := if 0 ≤ year ∧ year ≤ 99 then year + 1900 else year
  86400000 * daysFromCivil y month day

/-- Numeric value of a fixed-width ASCII digit group. -/
def digitsVal (ds : List Char) : ℤ :=
  (digitsToNat ds : ℤ)

/-- Embedding of `parseDateYmdUtc` (recommendations.ts): strict
`YYYY-MM-DD`, month ∈ [1,12], day ∈ [1,31], result in epoch milliseconds. -/
def parseDateYmdUtc (dateStr : String) : Option ℤ :=
  match trimChars dateStr.data with
  | [y1, y2, y3, y4, h1, m1, m2, h2, d1, d2] =>
    if ([y1, y2, y3, y4, m1, m2, d1, d2].all Char.isDigit) ∧ h1 = '-' ∧ h2 = '-' then
      let year := digitsVal [y1, y2, y3, y4]
      let month := digitsVal [m1, m2]
      let day := digitsVal [d1, d2]
      if month < 1 ∨ month > 12 then none
      else if day < 1 ∨ day > 31 then none
      else some (dateUtcMs year month day)
    else none
  | _ => none

/-- Embedding of `estimateTotalBars` (recommendations.ts): `none` when a
date or the interval fails to parse, otherwise
`max 0 (⌊max 0 ⌊(end-start)/60000⌋ / minutesPerBar⌋)`. -/
def estimateTotalBars (startDate endDate interval : String) : Option ℤ :=
  match parseDateYmdUtc startDate, parseDateYmdUtc endDate, parseIntervalToMinutes interval with
  | some start, some stop, some minutesPerBar =>
    let diffMinutes := max 0 (Int.fdiv (stop - start) 60000)
    some (max 0 (Int.fdiv diffMinutes (minutesPerBar : ℤ)))
  | _, _, _ => none

/-! ## WindowCounter (`calcExpectedWindows`, recommendations.ts lines 61–75)

Each input goes through `Math.max(0, Math.floor(·))`, embedded as
`Int.toNat ∘ Int.floor` on `ℚ`. -/

/-- Core of `calcExpectedWindows` after the clamp-and-floor of every
argument. -/
def calcExpectedWindowsNat (n train test step : ℕ) : Option ℕ :=
  if train = 0 ∨ test = 0 ∨ step = 0 then none
  else if n < train + test then some 0
  else some ((n - train - test) / step + 1)

/-- Embedding of `calcExpectedWindows` (recommendations.ts). -/
def calcExpectedWindows (totalBars trainBars testBars stepBars : ℚ) : Option ℕ :=
  calcExpectedWindowsNat ⌊totalBars⌋.toNat ⌊trainBars⌋.toNat ⌊testBars⌋.toNat ⌊stepBars⌋.toNat

/-! ## WindowRecommender (`recommendWalkForward`, recommendations.ts
lines 77–119) -/

/-- The walk-forward plan returned by `recommendWalkForward`. -/
structure WindowPlan where
  train_bars : ℕ
  test_bars : ℕ
  step_bars : ℕ
  max_windows : ℕ
  expected_windows : Option ℕ
  deriving DecidableEq

/-- The granularity rounding used (twice, with identical text) by the
source: round `test` down to a step of 100 / 50 / 10 and re-apply
`max minTest`. -/
def roundTestDown (minTest test : ℕ) : ℕ :=
  let roundTo := if test ≥ 2000 then 100 else if test ≥ 500 then 50 else 10
  max minTest (test / roundTo * roundTo)

/-- Embedding of `recommendWalkForward` (recommendations.ts): initial guess
`⌊n / (trainRatio + targetWindows)⌋` (falling back to `minTest` when ≤ 0),
granularity rounding, `train = max 200 (trainRatio * test)`, then the
shrink pass when `0 < n < train + 2 * test`. -/
def recommendWalkForward (totalBars : ℚ) : WindowPlan :=
  let n := ⌊totalBars⌋.toNat
  let trainRatio := 4
  let targetWindows := 6
  let maxWindows := 10
  let minTest := 200
  let test0 := n / (trainRatio + targetWindows)
  let test1 := if test0 = 0 then minTest else test0
  let test2 := roundTestDown minTest test1
  let train2 := max 200 (trainRatio * test2)
  let tt :=
    if 0 < n ∧ n < train2 + 2 * test2 then
      let t := max minTest (n / (trainRatio + 2))
      let t2 := roundTestDown minTest t
      (max 200 (trainRatio * t2), t2)
    else (train2, test2)
  { train_bars := tt.1
    test_bars := tt.2
    step_bars := tt.2
    max_windows := maxWindows
    expected_windows := calcExpectedWindowsNat n tt.1 tt.2 tt.2 }

/-! ## ConfigTree and `deepMerge` (HomePage.tsx lines 153–168)

JSON values are the inductive `JsonValue`; objects are association lists in
JavaScript insertion order (assignment to an existing key keeps its
position, a new key is appended at the end, exactly as `merged[k] = v`
behaves on a plain object). -/

/-- A JSON-like configuration value (`ConfigTree`). -/
inductive JsonValue where
  | null : JsonValue
  | bool (b : Bool) : JsonValue
  | num (q : ℚ) : JsonValue
  | str (s : String) : JsonValue
  | arr (xs : List JsonValue) : JsonValue
  | obj (fields : List (String × JsonValue)) : JsonValue

/-- First binding of key `k` in an object's field list (property lookup). -/
def getKey : List (String × JsonValue) → String → Option JsonValue
  | [], _ => none
  | (k', v') :: rest, k => if k' = k then some v' else getKey rest k

mutual

/-- Embedding of `deepMerge` (HomePage.tsx): when both sides are plain
objects, merge key-by-key; otherwise the patch value replaces the base
value wholesale (arrays, scalars, and mixed cases are all replacement). -/
def deepMerge : JsonValue → JsonValue → JsonValue
  | .obj base, .obj patch => .obj (mergeInto base patch)
  | _, v => v

/-- The `for (const [k, v] of Object.entries(patch))` loop of `deepMerge`,
applied to an object's field list. -/
def mergeInto : List (String × JsonValue) → List (String × JsonValue) →
    List (String × JsonValue)
  | base, [] => base
  | base, (k, v) :: rest => mergeInto (applyEntry base k v) rest

/-- `merged[k] = isPlainObject(merged[k]) && isPlainObject(v) ?
deepMerge(merged[k], v) : v` on the association-list representation:
replace the first binding of `k` in place, or append `(k, v)` at the end
when `k` is absent. -/
def applyEntry : List (String × JsonValue) → String → JsonValue →
    List (String × JsonValue)
  | [], k, v => [(k, v)]
  | (k', v') :: restB, k, v =>
    if k' = k then (k', deepMerge v' v) :: restB
    else (k', v') :: applyEntry restB k v

end

/-- The value `deepMerge` stores for a patch key `k`: the patch value when
the base has no binding at `k` (or either side is not a plain object), and
the recursive merge when both sides are plain objects — i.e.
`deepMerge prev v` applied to the previous binding when there is one. -/
def mergedValue : Option JsonValue → JsonValue → JsonValue
  | none, v => v
  | some prev, v => deepMerge prev v

/-! ## Per-stage label validation (`onRun` in HomePage.tsx lines 435–457,
`onRerun` in useModuleState.js lines 1050–1056)

Both handlers run, for the label-calculation stage,
`if (!Number.isFinite(window) || window < 3 || !Number.isInteger(window)) throw …`
followed by `if (window % 2 === 0) throw …`.  A finite JS number is a `ℚ`;
`Number.isInteger` is `den = 1`. -/

/-- Embedding of the label-window validation shared by `onRun` and
`onRerun`: `Except.error` is a thrown `Error` (submission aborted),
`Except.ok` lets the submission proceed to the next field. -/
def validateLabelWindow (window : ℚ) : Except String Unit :=
  if window < 3 ∨ window.den ≠ 1 then
    Except.error "标签参数：window 需要是 >= 3 的整数。"
  else if window.num % 2 = 0 then
    Except.error "标签参数：window 建议为奇数（例如 29）。"
  else Except.ok ()

/-! ## Form-override assembly (`onRun`, HomePage.tsx lines 415–598)

`onRun` starts from `config_overrides = JSON.parse(overridesText)` (or `{}`),
builds `form_overrides` by adding one key per *enabled* stage, in source
order, and submits `deepMerge(config_overrides, form_overrides)`.  The
per-stage value each enabled stage contributes is abstracted as a
`JsonValue` field (its internal validation is modelled separately, e.g.
`validateLabelWindow`). -/

/-- The override-enable flags and the stage fragments `onRun` would build
for the enabled stages. -/
structure RunFormState where
  useFeatureOverrides : Bool
  featureValue : JsonValue
  useLabelOverrides : Bool
  labelValue : JsonValue
  useTrainingOverrides : Bool
  trainingValue : JsonValue
  useInterpretationOverrides : Bool
  interpretationValue : JsonValue
  useAnalysisOverrides : Bool
  analysisValue : JsonValue
  useBacktestOverrides : Bool
  backtestValue : JsonValue
  useWalkForwardOverrides : Bool
  walkForwardValue : JsonValue

/-- The `form_overrides` object assembled by `onRun`: one key per enabled
stage, in the source's order. -/
def buildFormOverrides (st : RunFormState) : List (String × JsonValue) :=
  (if st.useFeatureOverrides then [("feature_calculation", st.featureValue)] else []) ++
  (if st.useLabelOverrides then [("label_calculation", st.labelValue)] else []) ++
  (if st.useTrainingOverrides then [("model_training", st.trainingValue)] else []) ++
  (if st.useInterpretationOverrides then [("model_interpretation", st.interpretationValue)] else []) ++
  (if st.useAnalysisOverrides then [("model_analysis", st.analysisValue)] else []) ++
  (if st.useBacktestOverrides then [("backtest_construction", st.backtestValue)] else []) ++
  (if st.useWalkForwardOverrides then [("walk_forward_evaluation", st.walkForwardValue)] else [])

/-- `config_overrides = deepMerge(config_overrides, form_overrides)` just
before submission, with `raw` the parsed free-form JSON override object. -/
def buildConfigOverrides (raw : List (String × JsonValue)) (st : RunFormState) : JsonValue :=
  deepMerge (.obj raw) (.obj (buildFormOverrides st))

/-! ## BacktestAssessor (`backtestSummary`, useModuleState.js
lines 903–1024) -/

/-- `feeRatio`: `fees_paid / initial_balance` when `initial_balance` is
present, truthy and > 0 and `fees_paid` is present; otherwise `null`. -/
def feeRatioOf (initialBalance feesPaid : Option ℚ) : Option ℚ :=
  match initialBalance, feesPaid with
  | some ib, some fp => if ib ≠ 0 ∧ 0 < ib then some (fp / ib) else none
  | _, _ => none

/-- Score contribution of `profit_rate`. -/
def scoreProfit : Option ℚ → ℤ
  | none => 0
  | some p => if p > 0 then 2 else -2

/-- Score contribution of `max_drawdown`. -/
def scoreDrawdown : Option ℚ → ℤ
  | none => 0
  | some md =>
    if md < 1/10 then 2
    else if md < 2/10 then 1
    else if md > 3/10 then -2
    else -1

/-- Score contribution of `total_trades`. -/
def scoreTrades : Option ℚ → ℤ
  | none => 0
  | some t =>
    if t ≥ 100 then 2
    else if t ≥ 30 then 1
    else if t < 10 then -2
    else -1

/-- Score contribution of `fee_ratio`. -/
def scoreFees : Option ℚ → ℤ
  | none => 0
  | some f =>
    if f < 2/100 then 1
    else if f > 1/10 then -2
    else if f > 3/100 then -1
    else 0

/-- The additive score computed by `backtestSummary` (each rule applied
only when its metric is non-null). -/
def backtestScore (profitRate maxDrawdown totalTrades feeRatio : Option ℚ) : ℤ :=
  scoreProfit profitRate + scoreDrawdown maxDrawdown + scoreTrades totalTrades +
    scoreFees feeRatio

/-- The verdict badge `(label, variant)` chosen by `backtestSummary`. -/
def backtestVerdict (profitRate : Option ℚ) (score : ℤ) : String × String :=
  match profitRate with
  | none => ("暂无结果", "secondary")
  | some _ =>
    if score ≥ 3 then ("看起来不错", "success")
    else if score ≥ 0 then ("一般（建议继续验证）", "secondary")
    else ("偏弱（建议先优化）", "destructive")

/-- The `warnings` list built by `backtestSummary`, in source order:
drawdown, trade-count, fee-ratio, then the walk-forward status line. -/
def backtestWarnings (maxDrawdown totalTrades feeRatio : Option ℚ)
    (walkForwardStatus walkForwardReason : Option String) : List String :=
  (match maxDrawdown with
   | none => []
   | some md =>
     if md > 3/10 then ["回撤很大：波动/风险偏高。"]
     else if md > 2/10 then ["回撤偏大：风险不低。"]
     else []) ++
  (match totalTrades with
   | none => []
   | some t =>
     if t < 10 then ["交易次数很少：结论很不稳定。"]
     else if t < 30 then ["交易次数偏少：建议拉长时间再看。"]
     else []) ++
  (match feeRatio with
   | none => []
   | some f =>
     if f > 1/10 then ["手续费占比很高：可能被成本吃掉收益。"]
     else if f > 3/100 then ["手续费占比偏高：需要关注交易频率与成本假设。"]
     else []) ++
  (match walkForwardStatus with
   | none => []
   | some s =>
     if s ≠ "success" then
       ["滚动验证未产出：" ++ (match walkForwardReason with | some r => r | none => "已跳过")]
     else [])

/-! ## Helper lemmas about `deepMerge` on association lists -/

theorem getKey_eq_none_of_notMem (l : List (String × JsonValue)) (k : String)
    (h : k ∉ l.map Prod.fst) : getKey l k = none := by
  induction l with
  | nil => rfl
  | cons hd tl ih =>
    obtain ⟨k', v'⟩ := hd
    simp only [List.map_cons, List.mem_cons, not_or] at h
    simp only [getKey]
    rw [if_neg (Ne.symm h.1)]
    exact ih h.2

theorem getKey_applyEntry_self (base : List (String × JsonValue)) (k : String)
    (v : JsonValue) :
    getKey (applyEntry base k v) k = some (mergedValue (getKey base k) v) := by
  induction base with
  | nil => simp [applyEntry, getKey, mergedValue]
  | cons hd tl ih =>
    obtain ⟨k', v'⟩ := hd
    by_cases h : k' = k
    · subst h
      simp [applyEntry, getKey, mergedValue]
    · simp [applyEntry, getKey, h, ih]

theorem getKey_applyEntry_ne (base : List (String × JsonValue)) (k : String)
    (v : JsonValue) (k' : String) (h : k' ≠ k) :
    getKey (applyEntry base k v) k' = getKey base k' := by
  induction base with
  | nil =>
    simp only [applyEntry, getKey]
    rw [if_neg (Ne.symm h)]
  | cons hd tl ih =>
    obtain ⟨k0, v0⟩ := hd
    by_cases h0 : k0 = k
    · subst h0
      simp only [applyEntry, if_pos rfl, getKey]
      rw [if_neg (Ne.symm h), if_neg (Ne.symm h)]
    · simp only [applyEntry, if_neg h0, getKey]
      by_cases h1 : k0 = k'
      · rw [if_pos h1, if_pos h1]
      · rw [if_neg h1, if_neg h1, ih]

theorem getKey_mergeInto_notMem (patch base : List (String × JsonValue)) (k : String)
    (h : k ∉ patch.map Prod.fst) : getKey (mergeInto base patch) k = getKey base k := by
  induction patch generalizing base with
  | nil => simp [mergeInto]
  | cons hd tl ih =>
    obtain ⟨k0, v0⟩ := hd
    simp only [List.map_cons, List.mem_cons, not_or] at h
    simp only [mergeInto]
    rw [ih (applyEntry base k0 v0) h.2, getKey_applyEntry_ne base k0 v0 k h.1]

/-- In every case where the base binding and the patch value are not both
plain objects, `deepMerge` returns the patch value unchanged. -/
theorem deepMerge_replace (prev v : JsonValue)
    (h : (∀ pf, prev ≠ JsonValue.obj pf) ∨ ∀ vf, v ≠ JsonValue.obj vf) :
    deepMerge prev v = v := by
  cases prev <;> cases v <;> try simp [deepMerge]
  all_goals rcases h with h | h
  all_goals exact absurd rfl (h _)

/-- The key-by-key reading of `deepMerge` on objects, for patches without
duplicate keys (JavaScript objects cannot have duplicates): a key absent
from the patch keeps the base binding, and a key present in the patch is
bound to `mergedValue` of the base binding and the patch value. -/
theorem getKey_mergeInto (patch base : List (String × JsonValue)) (k : String)
    (h : (patch.map Prod.fst).Nodup) :
    getKey (mergeInto base patch) k =
      match getKey patch k with
      | none => getKey base k
      | some v => some (mergedValue (getKey base k) v) := by
  induction patch generalizing base with
  | nil => simp [mergeInto, getKey]
  | cons hd tl ih =>
    obtain ⟨k0, v0⟩ := hd
    simp only [List.map_cons, List.nodup_cons] at h
    simp only [mergeInto]
    by_cases hk : k0 = k
    · subst hk
      have htl : getKey tl k0 = none := getKey_eq_none_of_notMem tl k0 h.1
      rw [getKey_mergeInto_notMem tl _ k0 h.1, getKey_applyEntry_self]
      simp [getKey, htl]
    · rw [ih _ h.2]
      have hbase : getKey (applyEntry base k0 v0) k = getKey base k :=
        getKey_applyEntry_ne _ _ _ _ (Ne.symm hk)
      simp only [getKey, if_neg hk]
      cases getKey tl k <;> simp [hbase]

/-! ## Claim theorems -/

/-- C3: `deepMerge(base, patch)` binds every key of the patch to the patch
value, except that when both sides hold a plain object at the key it
recurses (`mergedValue` folds both cases); non-object and array values
replace wholesale; and the two concrete examples of the specification hold:
`deepMerge({a:{x:1,y:2}}, {a:{y:3,z:4}}) = {a:{x:1,y:3,z:4}}` and
`deepMerge({a:[1,2]}, {a:[3]}) = {a:[3]}`. -/
theorem deepMerge_spec :
    (∀ (base patch : List (String × JsonValue)) (k : String),
      (patch.map Prod.fst).Nodup →
      getKey (mergeInto base patch) k =
        match getKey patch k with
        | none => getKey base k
        | some v => some (mergedValue (getKey base k) v)) ∧
    (∀ prev v : JsonValue, (∀ pf, prev ≠ .obj pf) ∨ (∀ vf, v ≠ .obj vf) →
      deepMerge prev v = v) ∧
    deepMerge (.obj [("a", .obj [("x", .num 1), ("y", .num 2)])])
        (.obj [("a", .obj [("y", .num 3), ("z", .num 4)])]) =
      .obj [("a", .obj [("x", .num 1), ("y", .num 3), ("z", .num 4)])] ∧
    deepMerge (.obj [("a", .arr [.num 1, .num 2])]) (.obj [("a", .arr [.num 3])]) =
      .obj [("a", .arr [.num 3])] := by
  refine ⟨fun base patch k h => getKey_mergeInto patch base k h,
    fun prev v h => deepMerge_replace prev v h, ?_, ?_⟩
  · simp [deepMerge, mergeInto, applyEntry]
  · simp [deepMerge, mergeInto, applyEntry]

/-- C3 witness: the key-by-key law applied at a concrete base, patch and
key, with the no-duplicate-keys hypothesis discharged by evaluation. -/
theorem deepMerge_spec_witness :
    getKey (mergeInto [("a", JsonValue.num 1)] [("a", JsonValue.num 2)]) "a" =
      some (mergedValue (some (JsonValue.num 1)) (JsonValue.num 2)) := by
  have h := deepMerge_spec.1 [("a", JsonValue.num 1)] [("a", JsonValue.num 2)] "a" (by simp)
  simpa [getKey] using h

/-- C9: merging the empty patch is a right identity on every object:
`deepMerge(c, {}) = c` structurally. -/
theorem deepMerge_empty_patch (fields : List (String × JsonValue)) :
    deepMerge (.obj fields) (.obj []) = .obj fields := by
  simp [deepMerge, mergeInto]

/-- C2: `calcExpectedWindows` floors each argument and clamps negatives to
0; it returns `none` when the floored train/test/step is ≤ 0, `some 0` when
the total is smaller than train + test, and
`⌊(total - train - test) / step⌋ + 1` otherwise; in particular
`calcExpectedWindows(12000, 8000, 2000, 2000) = 2`,
`calcExpectedWindows(100, 200, 50, 50) = 0`, and
`calcExpectedWindows(n, 0, 1, 1) = null` for every `n`. -/
theorem calcExpectedWindows_spec :
    (∀ totalBars trainBars testBars stepBars : ℚ,
      (⌊trainBars⌋ ≤ 0 ∨ ⌊testBars⌋ ≤ 0 ∨ ⌊stepBars⌋ ≤ 0 →
        calcExpectedWindows totalBars trainBars testBars stepBars = none) ∧
      (0 < ⌊trainBars⌋ → 0 < ⌊testBars⌋ → 0 < ⌊stepBars⌋ →
        ⌊totalBars⌋.toNat < ⌊trainBars⌋.toNat + ⌊testBars⌋.toNat →
        calcExpectedWindows totalBars trainBars testBars stepBars = some 0) ∧
      (0 < ⌊trainBars⌋ → 0 < ⌊testBars⌋ → 0 < ⌊stepBars⌋ →
        ⌊trainBars⌋.toNat + ⌊testBars⌋.toNat ≤ ⌊totalBars⌋.toNat →
        calcExpectedWindows totalBars trainBars testBars stepBars =
          some ((⌊totalBars⌋.toNat - ⌊trainBars⌋.toNat - ⌊testBars⌋.toNat) /
            ⌊stepBars⌋.toNat + 1))) ∧
    calcExpectedWindows 12000 8000 2000 2000 = some 2 ∧
    calcExpectedWindows 100 200 50 50 = some 0 ∧
    ∀ n : ℚ, calcExpectedWindows n 0 1 1 = none := by
  refine ⟨fun totalBars trainBars testBars stepBars => ⟨?_, ?_, ?_⟩, by decide, by decide, ?_⟩
  · intro h
    have hc : ⌊trainBars⌋.toNat = 0 ∨ ⌊testBars⌋.toNat = 0 ∨ ⌊stepBars⌋.toNat = 0 := by
      rcases h with h | h | h
      exacts [Or.inl (by omega), Or.inr (Or.inl (by omega)), Or.inr (Or.inr (by omega))]
    simp only [calcExpectedWindows, calcExpectedWindowsNat]
    rw [if_pos hc]
  · intro h1 h2 h3 hlt
    simp only [calcExpectedWindows, calcExpectedWindowsNat]
    rw [if_neg (by omega), if_pos hlt]
  · intro h1 h2 h3 hge
    simp only [calcExpectedWindows, calcExpectedWindowsNat]
    rw [if_neg (by omega), if_neg (by omega)]
  · intro n
    simp [calcExpectedWindows, calcExpectedWindowsNat]

/-- C2 witness: the `none` branch applied at `(77, 0, 1, 1)` with the
floored-train ≤ 0 hypothesis discharged numerically. -/
theorem calcExpectedWindows_spec_witness :
    calcExpectedWindows 77 0 1 1 = none := by
  exact (calcExpectedWindows_spec.1 77 0 1 1).1 (Or.inl (by norm_num))

/-- C4: `parseIntervalToMinutes` never throws, only returns positive
magnitudes (zero or negative magnitudes, empty strings, trailing garbage
and unknown units are all `none`), matches case-insensitively, and on the
specification's examples: `"15m"→15`, `"4h"→240`, `"1d"→1440`, `"m"→1`,
`"0m"→null`, `""→null`, `"5x"→null` (and `"4H"→240` for
case-insensitivity). -/
theorem parseIntervalToMinutes_spec :
    (∀ s n, parseIntervalToMinutes s = some n → 0 < n) ∧
    parseIntervalToMinutes "15m" = some 15 ∧
    parseIntervalToMinutes "4h" = some 240 ∧
    parseIntervalToMinutes "1d" = some 1440 ∧
    parseIntervalToMinutes "m" = some 1 ∧
    parseIntervalToMinutes "4H" = some 240 ∧
    parseIntervalToMinutes "0m" = none ∧
    parseIntervalToMinutes "" = none ∧
    parseIntervalToMinutes "5x" = none := by
  refine ⟨?_, by decide, by decide, by decide, by decide, by decide, by decide, by decide,
    by decide⟩
  intro s n h
  simp only [parseIntervalToMinutes] at h
  repeat' split at h
  all_goals first
    | exact Option.noConfusion h
    | (simp only [Option.some.injEq] at h; omega)

/-- C4 witness: the positivity clause applied at `"15m"` with the parse
hypothesis discharged by evaluation. -/
theorem parseIntervalToMinutes_spec_witness :
    parseIntervalToMinutes "15m" = some 15 ∧ 0 < 15 :=
  ⟨by decide, parseIntervalToMinutes_spec.1 "15m" 15 (by decide)⟩

/-- C5: `estimateTotalBars` returns `none` exactly when a date fails the
strict `YYYY-MM-DD` parse (month ∈ [1,12], day ∈ [1,31]) or the interval
fails to parse; otherwise it returns
`max 0 ⌊max 0 ⌊(end - start) / 60000⌋ / minutesPerBar⌋`, which is always
≥ 0; and `estimateTotalBars("2025-01-01", "2025-01-02", "1h") = 24`. -/
theorem estimateTotalBars_spec :
    (∀ s e i, estimateTotalBars s e i = none ↔
      (parseDateYmdUtc s = none ∨ parseDateYmdUtc e = none ∨
        parseIntervalToMinutes i = none)) ∧
    (∀ s e i a b m, parseDateYmdUtc s = some a → parseDateYmdUtc e = some b →
      parseIntervalToMinutes i = some m →
      estimateTotalBars s e i =
        some (max 0 (Int.fdiv (max 0 (Int.fdiv (b - a) 60000)) (m : ℤ)))) ∧
    (∀ s e i v, estimateTotalBars s e i = some v → 0 ≤ v) ∧
    estimateTotalBars "2025-01-01" "2025-01-02" "1h" = some 24 := by
  refine ⟨?_, ?_, ?_, by decide⟩
  · intro s e i
    simp only [estimateTotalBars]
    rcases hs : parseDateYmdUtc s with _ | a <;>
      rcases he : parseDateYmdUtc e with _ | b <;>
      rcases hi : parseIntervalToMinutes i with _ | m <;> simp
  · intro s e i a b m hs he hi
    simp only [estimateTotalBars, hs, he, hi]
  · intro s e i v h
    simp only [estimateTotalBars] at h
    rcases hs : parseDateYmdUtc s with _ | a <;> rw [hs] at h
    · simp at h
    rcases he : parseDateYmdUtc e with _ | b <;> rw [he] at h
    · simp at h
    rcases hi : parseIntervalToMinutes i with _ | m <;> rw [hi] at h
    · simp at h
    simp only [Option.some.injEq] at h
    exact h ▸ le_max_left 0 _

/-- C5 witness: the some-branch formula applied at the specification's
example, with all three parse hypotheses discharged by evaluation. -/
theorem estimateTotalBars_spec_witness :
    estimateTotalBars "2025-01-01" "2025-01-02" "1h" =
      some (max 0 (Int.fdiv (max 0 (Int.fdiv (1735776000000 - 1735689600000) 60000))
        (60 : ℤ))) := by
  exact estimateTotalBars_spec.2.1 "2025-01-01" "2025-01-02" "1h"
    1735689600000 1735776000000 60 (by decide) (by decide) (by decide)

/-- The granularity rounding keeps the 200-bar floor and always lands on a
multiple of 10 (the rounding steps 100, 50 and 10 are all multiples of 10,
and so is the floor 200). -/
theorem roundTestDown_props (t : ℕ) :
    200 ≤ roundTestDown 200 t ∧ roundTestDown 200 t % 10 = 0 := by
  simp only [roundTestDown]
  refine ⟨Nat.le_max_left _ _, ?_⟩
  have h10 : ∀ r : ℕ, r = 100 ∨ r = 50 ∨ r = 10 → max 200 (t / r * r) % 10 = 0 := by
    intro r hr
    rcases max_choice 200 (t / r * r) with hm | hm <;>
      (rw [hm]; try rcases hr with rfl | rfl | rfl <;> omega)
  split
  · exact h10 100 (Or.inl rfl)
  · split
    · exact h10 50 (Or.inr (Or.inl rfl))
    · exact h10 10 (Or.inr (Or.inr rfl))

/-- Every branch of `recommendWalkForward` produces a plan of the shape
`{train = 4*test, test, step = test, max_windows = 10}` with `test ≥ 200` a
multiple of 10 (the `max 200` guard on the train size never binds because
`4 * test ≥ 800`). -/
theorem recommendWalkForward_eq (totalBars : ℚ) :
    ∃ test : ℕ, 200 ≤ test ∧ test % 10 = 0 ∧
      recommendWalkForward totalBars =
        ⟨4 * test, test, test, 10,
          calcExpectedWindowsNat ⌊totalBars⌋.toNat (4 * test) test test⟩ := by
  have mk4 : ∀ x : ℕ, ∃ test : ℕ, 200 ≤ test ∧ test % 10 = 0 ∧
      (max 200 (4 * roundTestDown 200 x), roundTestDown 200 x) = (4 * test, test) := by
    intro x
    obtain ⟨h200, h10⟩ := roundTestDown_props x
    refine ⟨roundTestDown 200 x, h200, h10, ?_⟩
    rw [Nat.max_eq_right (by omega)]
  simp only [recommendWalkForward]
  split <;> split <;>
    (obtain ⟨test, h200, h10, hpair⟩ := mk4 _
     refine ⟨test, h200, h10, ?_⟩
     rw [hpair])

/-- C6: for `totalBars = 100000` the recommendation keeps
`test_bars ≥ 200`, `train_bars = 4 * test_bars`,
`train_bars + 2 * test_bars ≤ 100000` and at least two expected windows
(the run computes test 10000, train 40000, six windows, no shrink pass). -/
theorem recommendWalkForward_100000 :
    200 ≤ (recommendWalkForward 100000).test_bars ∧
    (recommendWalkForward 100000).train_bars = 4 * (recommendWalkForward 100000).test_bars ∧
    (recommendWalkForward 100000).train_bars + 2 * (recommendWalkForward 100000).test_bars ≤
      100000 ∧
    ∃ w, (recommendWalkForward 100000).expected_windows = some w ∧ 2 ≤ w := by
  refine ⟨by decide, by decide, by decide, 6, by decide, by decide⟩

/-- C10: for every input, the recommended plan has `test_bars ≥ 200`,
`test_bars` a multiple of 10, `train_bars = 4 * test_bars` (the
`max(200, ·)` guard never binds since `4 * test_bars ≥ 800`),
`step_bars = test_bars`, and `max_windows = 10`. -/
theorem recommendWalkForward_invariants (totalBars : ℚ) :
    200 ≤ (recommendWalkForward totalBars).test_bars ∧
    (recommendWalkForward totalBars).test_bars % 10 = 0 ∧
    (recommendWalkForward totalBars).train_bars = 4 * (recommendWalkForward totalBars).test_bars ∧
    (recommendWalkForward totalBars).step_bars = (recommendWalkForward totalBars).test_bars ∧
    (recommendWalkForward totalBars).max_windows = 10 := by
  obtain ⟨test, h200, h10, heq⟩ := recommendWalkForward_eq totalBars
  rw [heq]
  exact ⟨h200, h10, rfl, rfl, rfl⟩

/-- C1 counterexample: with the label-calculation override enabled, the
even integer window 30 (which is ≥ 3) does **not** pass validation — the
handler throws, so the submission does not proceed. -/
theorem validateLabelWindow_rejects_30 :
    validateLabelWindow 30 = Except.error "标签参数：window 建议为奇数（例如 29）。" := by
  norm_num [validateLabelWindow]

/-- C1 amended: per-stage validation accepts exactly the **odd** integer
windows ≥ 3; an even window ≥ 3 (such as 30) raises and aborts the
submission, in both `onRun` and `onRerun`. -/
theorem validateLabelWindow_spec (window : ℚ) :
    validateLabelWindow window = Except.ok () ↔
      (3 ≤ window ∧ window.den = 1 ∧ window.num % 2 = 1) := by
  simp only [validateLabelWindow]
  split
  · rename_i h
    constructor
    · intro he
      exact absurd he (by simp)
    · rintro ⟨h3, hden, _⟩
      rcases h with h | h
      · exact absurd h3 (not_le.mpr h)
      · exact absurd hden h
  · rename_i h
    push_neg at h
    split
    · rename_i heven
      constructor
      · intro he
        exact absurd he (by simp)
      · rintro ⟨_, _, hodd⟩
        omega
    · rename_i hodd
      have h2 : window.num % 2 = 1 := by omega
      simp [h.1, h.2, h2]

/-- C7: the assessor's score is the sum of the four per-metric rules, each
applied only when its metric is non-null (`profit_rate > 0` → +2 else −2;
`max_drawdown < 0.1` → +2, `< 0.2` → +1, `> 0.3` → −2, else −1;
`total_trades ≥ 100` → +2, `≥ 30` → +1, `< 10` → −2, else −1;
`fee_ratio < 0.02` → +1, `> 0.1` → −2, `> 0.03` → −1); the verdict is
"暂无结果" ("no result") on null `profit_rate`, "看起来不错" ("looks good")
for score ≥ 3, "一般（建议继续验证）" ("neutral / keep validating") for
0 ≤ score < 3, "偏弱（建议先优化）" ("weak / needs optimization") for
score < 0; and on `{profit_rate: 0.1, max_drawdown: 0.05,
total_trades: 150, fee_ratio: 0.01}` the score is 7, the verdict is
"looks good" and the warnings list is empty. -/
theorem backtestAssessor_spec :
    (∀ a b c d, backtestScore a b c d =
      scoreProfit a + scoreDrawdown b + scoreTrades c + scoreFees d) ∧
    (∀ p : ℚ, (0 < p → scoreProfit (some p) = 2) ∧ (p ≤ 0 → scoreProfit (some p) = -2)) ∧
    (∀ md : ℚ, (md < 1/10 → scoreDrawdown (some md) = 2) ∧
      (1/10 ≤ md → md < 2/10 → scoreDrawdown (some md) = 1) ∧
      (3/10 < md → scoreDrawdown (some md) = -2) ∧
      (2/10 ≤ md → md ≤ 3/10 → scoreDrawdown (some md) = -1)) ∧
    (∀ t : ℚ, (100 ≤ t → scoreTrades (some t) = 2) ∧
      (30 ≤ t → t < 100 → scoreTrades (some t) = 1) ∧
      (t < 10 → scoreTrades (some t) = -2) ∧
      (10 ≤ t → t < 30 → scoreTrades (some t) = -1)) ∧
    (∀ f : ℚ, (f < 2/100 → scoreFees (some f) = 1) ∧
      (1/10 < f → scoreFees (some f) = -2) ∧
      (3/100 < f → f ≤ 1/10 → scoreFees (some f) = -1)) ∧
    scoreProfit none = 0 ∧ scoreDrawdown none = 0 ∧ scoreTrades none = 0 ∧
      scoreFees none = 0 ∧
    (∀ s : ℤ, backtestVerdict none s = ("暂无结果", "secondary")) ∧
    (∀ (p : ℚ) (s : ℤ), (3 ≤ s → backtestVerdict (some p) s = ("看起来不错", "success")) ∧
      (0 ≤ s → s < 3 → backtestVerdict (some p) s = ("一般（建议继续验证）", "secondary")) ∧
      (s < 0 → backtestVerdict (some p) s = ("偏弱（建议先优化）", "destructive"))) ∧
    backtestScore (some (1/10)) (some (5/100)) (some 150) (some (1/100)) = 7 ∧
    backtestVerdict (some (1/10)) 7 = ("看起来不错", "success") ∧
    backtestWarnings (some (5/100)) (some 150) (some (1/100)) none none = [] := by
  refine ⟨fun a b c d => rfl, ?_, ?_, ?_, ?_, rfl, rfl, rfl, rfl, fun s => rfl, ?_,
    ?_, ?_, ?_⟩
  · intro p
    constructor <;> intro h <;> simp only [scoreProfit] <;>
      [rw [if_pos h]; rw [if_neg (not_lt.mpr h)]]
  · intro md
    refine ⟨fun h1 => ?_, fun h1 h2 => ?_, fun h1 => ?_, fun h1 h2 => ?_⟩ <;>
      simp only [scoreDrawdown] <;> split_ifs <;> first | rfl | linarith
  · intro t
    refine ⟨fun h1 => ?_, fun h1 h2 => ?_, fun h1 => ?_, fun h1 h2 => ?_⟩ <;>
      simp only [scoreTrades] <;> split_ifs <;> first | rfl | linarith
  · intro f
    refine ⟨fun h1 => ?_, fun h1 => ?_, fun h1 h2 => ?_⟩ <;>
      simp only [scoreFees] <;> split_ifs <;> first | rfl | linarith
  · intro p s
    refine ⟨fun h1 => ?_, fun h1 h2 => ?_, fun h1 => ?_⟩ <;>
      simp only [backtestVerdict] <;> split_ifs <;> first | rfl | omega
  · norm_num [backtestScore, scoreProfit, scoreDrawdown, scoreTrades, scoreFees]
  · decide
  · norm_num [backtestWarnings]

/-- C7 witness: the score rules and the verdict mapping applied at the
specification's concrete healthy backtest. -/
theorem backtestAssessor_spec_witness :
    scoreProfit (some (1/10)) = 2 ∧ scoreDrawdown (some (5/100)) = 2 ∧
    scoreTrades (some 150) = 2 ∧ scoreFees (some (1/100)) = 1 ∧
    backtestVerdict (some (1/10)) 7 = ("看起来不错", "success") :=
  ⟨(backtestAssessor_spec.2.1 (1/10)).1 (by norm_num),
   (backtestAssessor_spec.2.2.1 (5/100)).1 (by norm_num),
   (backtestAssessor_spec.2.2.2.1 150).1 (by norm_num),
   (backtestAssessor_spec.2.2.2.2.1 (1/100)).1 (by norm_num),
   (backtestAssessor_spec.2.2.2.2.2.2.2.2.2.2.1 (1/10) 7).1 (by norm_num)⟩

/-! ## Helper lemmas for the form-override assembly -/

theorem getKey_append (xs ys : List (String × JsonValue)) (k : String) :
    getKey (xs ++ ys) k =
      match getKey xs k with
      | some v => some v
      | none => getKey ys k := by
  induction xs with
  | nil => simp [getKey]
  | cons hd tl ih =>
    obtain ⟨k0, v0⟩ := hd
    by_cases h : k0 = k
    · simp [getKey, h]
    · simp only [List.cons_append, getKey, if_neg h]
      exact ih

theorem getKey_stageEntry (b : Bool) (k0 : String) (v : JsonValue) (k : String) :
    getKey (if b then [(k0, v)] else []) k =
      if b ∧ k0 = k then some v else none := by
  cases b <;> by_cases h : k0 = k <;> simp [getKey, h]

/-- The stage keys of `form_overrides` are pairwise distinct whatever the
enable flags are. -/
theorem formKeys_nodup (st : RunFormState) :
    ((buildFormOverrides st).map Prod.fst).Nodup := by
  rcases st with ⟨b1, v1, b2, v2, b3, v3, b4, v4, b5, v5, b6, v6, b7, v7⟩
  cases b1 <;> cases b2 <;> cases b3 <;> cases b4 <;> cases b5 <;> cases b6 <;>
    cases b7 <;> simp [buildFormOverrides]

/-- Lookup of one stage key in `form_overrides`: present with the stage's
value exactly when the stage override is enabled. -/
theorem getKey_buildFormOverrides (st : RunFormState) :
    getKey (buildFormOverrides st) "feature_calculation" =
      (if st.useFeatureOverrides then some st.featureValue else none) ∧
    getKey (buildFormOverrides st) "label_calculation" =
      (if st.useLabelOverrides then some st.labelValue else none) ∧
    getKey (buildFormOverrides st) "model_training" =
      (if st.useTrainingOverrides then some st.trainingValue else none) ∧
    getKey (buildFormOverrides st) "model_interpretation" =
      (if st.useInterpretationOverrides then some st.interpretationValue else none) ∧
    getKey (buildFormOverrides st) "model_analysis" =
      (if st.useAnalysisOverrides then some st.analysisValue else none) ∧
    getKey (buildFormOverrides st) "backtest_construction" =
      (if st.useBacktestOverrides then some st.backtestValue else none) ∧
    getKey (buildFormOverrides st) "walk_forward_evaluation" =
      (if st.useWalkForwardOverrides then some st.walkForwardValue else none) := by
  simp only [buildFormOverrides, getKey_append, getKey_stageEntry]
  refine ⟨?_, ?_, ?_, ?_, ?_, ?_, ?_⟩ <;>
    rcases st with ⟨b1, v1, b2, v2, b3, v3, b4, v4, b5, v5, b6, v6, b7, v7⟩ <;>
    cases b1 <;> cases b2 <;> cases b3 <;> cases b4 <;> cases b5 <;> cases b6 <;>
    cases b7 <;> simp

/-- C8: the submitted payload is exactly
`deepMerge(parsedRawJsonOverrides, form_overrides)`; key-by-key, a key
carried by an enabled stage ends up bound to `mergedValue` of the raw-JSON
binding and the form value (so the structured form value takes precedence,
deep-merging when both sides are objects), while a key of no enabled stage
keeps the raw-JSON binding; each stage key is present in `form_overrides`
iff its stage is enabled, so disabled stages contribute nothing. -/
theorem configOverrides_spec :
    (∀ raw st, buildConfigOverrides raw st =
      deepMerge (.obj raw) (.obj (buildFormOverrides st))) ∧
    (∀ raw st k, getKey (mergeInto raw (buildFormOverrides st)) k =
      match getKey (buildFormOverrides st) k with
      | none => getKey raw k
      | some v => some (mergedValue (getKey raw k) v)) ∧
    (∀ st, getKey (buildFormOverrides st) "label_calculation" =
      if st.useLabelOverrides then some st.labelValue else none) ∧
    (∀ raw st, st.useLabelOverrides = false →
      getKey (mergeInto raw (buildFormOverrides st)) "label_calculation" =
        getKey raw "label_calculation") := by
  refine ⟨fun raw st => rfl,
    fun raw st k => getKey_mergeInto (buildFormOverrides st) raw k (formKeys_nodup st),
    fun st => (getKey_buildFormOverrides st).2.1, ?_⟩
  intro raw st hoff
  rw [getKey_mergeInto (buildFormOverrides st) raw _ (formKeys_nodup st),
    (getKey_buildFormOverrides st).2.1, hoff]
  simp

/-- C8 witness: with the label stage disabled, the submitted object keeps
the raw-JSON binding of `label_calculation` untouched — the disabled-stage
clause applied at a concrete state, its hypothesis discharged by `rfl`. -/
theorem configOverrides_spec_witness :
    getKey (mergeInto [("label_calculation", JsonValue.num 1)]
      (buildFormOverrides ⟨false, .null, false, .null, false, .null, false, .null,
        false, .null, false, .null, false, .null⟩)) "label_calculation" =
      some (JsonValue.num 1) := by
  have h := configOverrides_spec.2.2.2 [("label_calculation", JsonValue.num 1)]
    ⟨false, .null, false, .null, false, .null, false, .null, false, .null, false, .null,
      false, .null⟩ rfl
  simpa [getKey] using h

end EcPredictFlow
